import Mathlib

/-!
Verification of the Fracture keyboard firmware's inter-board protocol core
(src/Firmware/Fracture_Keyboard.ino): packet transport, node registry,
topology discovery and the root health monitor.

The embedding is a direct translation of the firmware's globals and
functions.  Machine integers are modelled as `Nat`; `uint8_t` narrowing
assignments are written with an explicit `% 256`.  Hardware side effects
(RS-485 writes, the right-neighbor pulse, the remote note callbacks) are
collected in an explicit `Output` list; `millis()` readings and pin levels
are passed in as parameters.
-/

set_option autoImplicit false

namespace Fracture

/-- RS-485 message type constants from the firmware. -/
def RS485_ANNOUNCE_MSG : Nat := 0x01

def RS485_NOTE_MSG : Nat := 0x02

def RS485_PING_MSG : Nat := 0x03

def RS485_PING_REPLY_MSG : Nat := 0x04

def RS485_REMAP_REQUEST_MSG : Nat := 0x05

/-- Registry capacity, `RS485_MAX_NODES` in the firmware. -/
def RS485_MAX_NODES : Nat := 16

/-- `GLOBAL_BASE_NOTE` in the firmware. -/
def GLOBAL_BASE_NOTE : Nat := 48

/-- `BOARD_NOTE_SPAN` in the firmware. -/
def BOARD_NOTE_SPAN : Nat := 24

/-- `PING_INTERVAL_MS` in the firmware. -/
def PING_INTERVAL_MS : Nat := 1000

/-- `PING_TIMEOUT_MS` in the firmware. -/
def PING_TIMEOUT_MS : Nat := 200

/-- One registry entry, `struct NodeInfo` in the firmware. -/
structure NodeInfo where
  nodeId : Nat
  boardIndex : Nat
  deriving DecidableEq, Repr

/-- A complete frame as delivered by the receive parser to the dispatch
switch: the stored `rx.type`, the declared `rx.len` and the bytes actually
written into `rx.buf` during this frame. -/
structure Frame where
  ftype : Nat
  flen : Nat
  fbuf : List Nat
  deriving DecidableEq, Repr

/-- Observable side effects of the protocol core: a transmitted frame
(`rs485SendPacket`), the right-neighbor wake pulse (`pulseRightNeighbor`)
and the remote note callbacks consumed by audio/LED/MIDI. -/
inductive Output where
  | packet (ptype : Nat) (payload : List Nat)
  | pulseRight
  | remoteNoteOn (note vel : Nat)
  | remoteNoteOff (note : Nat)
  deriving DecidableEq, Repr

/-- Receive parser state, `struct RxState` in the firmware.  The firmware's
`pos` cursor always equals the number of bytes written into `buf` since the
last length byte, so `buf` is kept as the list of those bytes and `pos` is
`buf.length`. -/
structure RxState where
  state : Nat
  len : Nat
  ptype : Nat
  buf : List Nat
  checksum : Nat
  deriving DecidableEq, Repr

/-- Initial parser state (all fields zeroed, as the firmware's globals). -/
def rxInit : RxState := ⟨0, 0, 0, [], 0⟩

/-- Checksum of a frame: XOR of type, length and every payload byte, exactly
as accumulated by `rs485SendPacket`. -/
def rs485Checksum (ptype : Nat) (payload : List Nat) : Nat :=
  payload.foldl Nat.xor (Nat.xor ptype payload.length)

/-- The byte sequence written on the bus by `rs485SendPacket`:
START `0xAA`, length, type, payload, checksum. -/
def rs485SendPacketBytes (ptype : Nat) (payload : List Nat) : List Nat :=
  0xAA :: payload.length :: ptype :: (payload ++ [rs485Checksum ptype payload])

/-- One step of the receive state machine of `processRs485` on a single
byte.  Returns the new parser state together with the frame completed by
this byte, if any (the firmware dispatches it in place; handlers never
touch `rx`, so parsing and dispatch are factored apart here). -/
def rxStep (s : RxState) (b : Nat) : RxState × List Frame :=
  match s.state with
  | 0 => if b = 0xAA then ({ s with state := 1, checksum := 0 }, []) else (s, [])
  | 1 => ({ s with len := b, buf := [], state := 2 }, [])
  | 2 => ({ s with ptype := b, checksum := Nat.xor b s.len, state := 3 }, [])
  | 3 =>
    let s1 := if s.buf.length < 32 then
        { s with buf := s.buf ++ [b], checksum := Nat.xor s.checksum b }
      else s
    if s1.len ≤ s1.buf.length then ({ s1 with state := 4 }, []) else (s1, [])
  | 4 =>
    if s.checksum = b then ({ s with state := 0 }, [⟨s.ptype, s.len, s.buf⟩])
    else ({ s with state := 0 }, [])
  | _ => (s, [])

/-- Run the receive state machine over a list of bytes, collecting the
completed frames in order (the byte-drain loop of `processRs485`). -/
def runParser (s : RxState) : List Nat → RxState × List Frame
  | [] => (s, [])
  | b :: rest =>
    let r1 := rxStep s b
    let r2 := runParser r1.1 rest
    (r2.1, r1.2 ++ r2.2)

theorem runParser_nil (s : RxState) : runParser s [] = (s, []) := rfl

theorem runParser_cons (s : RxState) (b : Nat) (rest : List Nat) :
    runParser s (b :: rest) =
      ((runParser (rxStep s b).1 rest).1,
        (rxStep s b).2 ++ (runParser (rxStep s b).1 rest).2) := rfl

theorem runParser_append (s : RxState) (xs ys : List Nat) :
    runParser s (xs ++ ys) =
      ((runParser (runParser s xs).1 ys).1,
        (runParser s xs).2 ++ (runParser (runParser s xs).1 ys).2) := by
  induction xs generalizing s with
  | nil => simp [runParser]
  | cons b rest ih =>
    simp only [List.cons_append, runParser_cons, ih, List.append_assoc]

/-- Firmware globals relevant to the protocol core.  `myBoardIndex` uses
the firmware's `0xFF` sentinel for "unassigned"; `pingReceived` is the
16-slot reply flag array. -/
structure Fw where
  myNodeId : Nat
  nodeList : List NodeInfo
  myBoardIndex : Nat
  totalBoards : Nat
  discoveryDone : Bool
  remapRequested : Bool
  isRemapping : Bool
  networkHealthy : Bool
  boardBaseNote : Nat
  pingSequence : Nat
  awaitingPingReplies : Bool
  pingStartMs : Nat
  lastPingMs : Nat
  pingReceived : List Bool
  rx : RxState
  deriving DecidableEq, Repr

/-- Little-endian serialization of a 32-bit identity, as written by
`sendIdAnnounce`, `broadcastNoteEvent` and `handlePingPacket`:
`id & 0xFF`, `(id >> 8) & 0xFF`, `(id >> 16) & 0xFF`, `(id >> 24) & 0xFF`. -/
def encodeId (id : Nat) : List Nat :=
  [Nat.land id 0xFF,
   Nat.land (Nat.shiftRight id 8) 0xFF,
   Nat.land (Nat.shiftRight id 16) 0xFF,
   Nat.land (Nat.shiftRight id 24) 0xFF]

/-- Little-endian reconstruction of a 32-bit identity from four payload
bytes, as in `handleAnnouncePacket`, `handleNotePacket` and
`handlePingReplyPacket`:
`b0 | (b1 << 8) | (b2 << 16) | (b3 << 24)`. -/
def decodeId (b0 b1 b2 b3 : Nat) : Nat :=
  Nat.lor (Nat.lor (Nat.lor b0 (Nat.shiftLeft b1 8)) (Nat.shiftLeft b2 16))
    (Nat.shiftLeft b3 24)

/-- The overwrite scan of `registerNode`: walk the registry, overwrite the
`boardIndex` of the first entry whose `nodeId` matches, and report `none`
when no entry matches (`found == false`). -/
def regOverwrite (l : List NodeInfo) (id p : Nat) : Option (List NodeInfo) :=
  match l with
  | [] => none
  | e :: rest =>
    if e.nodeId = id then some ({ e with boardIndex := p } :: rest)
    else (regOverwrite rest id p).map (e :: ·)

/-- `registerNode(nodeId, boardIndex)`: overwrite the position of a known
identity in place, else append while capacity remains.  When discovery has
converged and board 0 admits a new identity, it broadcasts REMAP_REQUEST,
sets `remapRequested` and clears `networkHealthy`. -/
def registerNode (id p : Nat) (s : Fw) : Fw × List Output :=
  match regOverwrite s.nodeList id p with
  | some l => ({ s with nodeList := l }, [])
  | none =>
    if s.nodeList.length < RS485_MAX_NODES then
      let s1 := { s with nodeList := s.nodeList ++ [⟨id, p⟩] }
      if s1.discoveryDone = true ∧ s1.myBoardIndex = 0 then
        ({ s1 with remapRequested := true, networkHealthy := false },
          [Output.packet RS485_REMAP_REQUEST_MSG []])
      else (s1, [])
    else (s, [])

/-- `handleAnnouncePacket`: a 5-byte payload carries identity and board
index; anything else is ignored. -/
def handleAnnouncePacket (payload : List Nat) (len : Nat) (s : Fw) :
    Fw × List Output :=
  if len ≠ 5 then (s, [])
  else
    registerNode
      (decodeId (payload.getD 0 0) (payload.getD 1 0) (payload.getD 2 0)
        (payload.getD 3 0))
      (payload.getD 4 0) s

/-- `handleNotePacket`: a 7-byte payload carries identity, note, velocity
and the on/off flag; frames from this board's own identity are dropped;
others fire the remote note callbacks. -/
def handleNotePacket (payload : List Nat) (len : Nat) (s : Fw) :
    Fw × List Output :=
  if len ≠ 7 then (s, [])
  else
    let srcId := decodeId (payload.getD 0 0) (payload.getD 1 0)
      (payload.getD 2 0) (payload.getD 3 0)
    if srcId = s.myNodeId then (s, [])
    else if payload.getD 6 0 ≠ 0 then
      (s, [Output.remoteNoteOn (payload.getD 4 0) (payload.getD 5 0)])
    else (s, [Output.remoteNoteOff (payload.getD 4 0)])

/-- `handlePingPacket`: reply to a 1-byte ping with this board's identity
and the echoed sequence number. -/
def handlePingPacket (payload : List Nat) (len : Nat) (s : Fw) :
    Fw × List Output :=
  if len ≠ 1 then (s, [])
  else
    (s, [Output.packet RS485_PING_REPLY_MSG (encodeId s.myNodeId ++ [payload.getD 0 0])])

/-- `handlePingReplyPacket`: when awaiting replies and the sequence
matches, mark the reply slot of the first registry entry with the sender's
identity. -/
def handlePingReplyPacket (payload : List Nat) (len : Nat) (s : Fw) :
    Fw × List Output :=
  if len ≠ 5 then (s, [])
  else
    let srcId := decodeId (payload.getD 0 0) (payload.getD 1 0)
      (payload.getD 2 0) (payload.getD 3 0)
    let seq := payload.getD 4 0
    if s.awaitingPingReplies = false then (s, [])
    else if seq ≠ s.pingSequence then (s, [])
    else
      match s.nodeList.findIdx? (fun e => e.nodeId = srcId) with
      | some i => ({ s with pingReceived := s.pingReceived.set i true }, [])
      | none => (s, [])

/-- `handleRemapRequestPacket`: record the pending remap and clear the
health flag. -/
def handleRemapRequestPacket (_payload : List Nat) (_len : Nat) (s : Fw) :
    Fw × List Output :=
  ({ s with remapRequested := true, networkHealthy := false }, [])

/-- The dispatch switch at the end of `processRs485` case 4: route a
checksum-valid frame to its handler by type; unknown types are ignored. -/
def dispatchFrame (f : Frame) (s : Fw) : Fw × List Output :=
  if f.ftype = RS485_ANNOUNCE_MSG then handleAnnouncePacket f.fbuf f.flen s
  else if f.ftype = RS485_NOTE_MSG then handleNotePacket f.fbuf f.flen s
  else if f.ftype = RS485_PING_MSG then handlePingPacket f.fbuf f.flen s
  else if f.ftype = RS485_PING_REPLY_MSG then handlePingReplyPacket f.fbuf f.flen s
  else if f.ftype = RS485_REMAP_REQUEST_MSG then handleRemapRequestPacket f.fbuf f.flen s
  else (s, [])

/-- Feed one received byte through the parser and dispatch any completed
frame (the handlers never read or write `rx`, so advancing `rx` first is
exactly the firmware's order of effects). -/
def fwRxByte (b : Nat) (s : Fw) : Fw × List Output :=
  let r := rxStep s.rx b
  match r.2 with
  | [] => ({ s with rx := r.1 }, [])
  | f :: _ => dispatchFrame f { s with rx := r.1 }

/-- `processRs485`: drain a list of available bytes. -/
def fwProcessBytes (bytes : List Nat) (s : Fw) : Fw × List Output :=
  match bytes with
  | [] => (s, [])
  | b :: rest =>
    let r1 := fwRxByte b s
    let r2 := fwProcessBytes rest r1.1
    (r2.1, r1.2 ++ r2.2)

/-- `sendIdAnnounce(boardIndex)`: broadcast this board's identity and index,
then register itself. -/
def sendIdAnnounce (idx : Nat) (s : Fw) : Fw × List Output :=
  let r := registerNode s.myNodeId idx s
  (r.1, Output.packet RS485_ANNOUNCE_MSG (encodeId s.myNodeId ++ [idx]) :: r.2)

/-- `sendPing()`: bump the (uint8) sequence, broadcast PING, clear all reply
slots, pre-mark this board's own slot, and open the reply window at
`nowMs` (the firmware's `millis()` reading). -/
def sendPing (nowMs : Nat) (s : Fw) : Fw × List Output :=
  let seq := (s.pingSequence + 1) % 256
  let cleared := List.replicate RS485_MAX_NODES false
  let marked :=
    match s.nodeList.findIdx? (fun e => e.nodeId = s.myNodeId) with
    | some i => cleared.set i true
    | none => cleared
  ({ s with
      pingSequence := seq, pingReceived := marked,
      awaitingPingReplies := true, pingStartMs := nowMs },
    [Output.packet RS485_PING_MSG [seq]])

/-- The reply scan at window expiry in `loop()`: `missing` is set when any
slot of a known registry entry is still unreceived. -/
def anyMissing (s : Fw) : Bool :=
  (List.range s.nodeList.length).any (fun i => !(s.pingReceived.getD i false))

/-- The root health-monitor block of `loop()` at time `nowMs`: only on
board 0 with more than one board; start a ping cycle when idle and the
interval elapsed (the loop also records `lastPingMs = nowMs` then), else on
window expiry mark health and broadcast REMAP_REQUEST when a reply is
missing. -/
def healthCheck (nowMs : Nat) (s : Fw) : Fw × List Output :=
  if s.myBoardIndex = 0 ∧ s.totalBoards > 1 then
    if s.awaitingPingReplies = false ∧ nowMs - s.lastPingMs > PING_INTERVAL_MS then
      let r := sendPing nowMs s
      ({ r.1 with lastPingMs := nowMs }, r.2)
    else if s.awaitingPingReplies = true ∧ nowMs - s.pingStartMs > PING_TIMEOUT_MS then
      let s1 := { s with awaitingPingReplies := false }
      if anyMissing s then
        ({ s1 with networkHealthy := false, remapRequested := true },
          [Output.packet RS485_REMAP_REQUEST_MSG []])
      else ({ s1 with networkHealthy := true }, [])
    else (s, [])
  else (s, [])

/-- The entry of `startDiscovery`: clear the done/health flags, raise
`isRemapping`, forget the assignment (`0xFF`) and empty the registry. -/
def discReset (s : Fw) : Fw :=
  { s with
      discoveryDone := false, isRemapping := true, networkHealthy := false,
      myBoardIndex := 0xFF, nodeList := [] }

/-- The root branch of `startDiscovery`: with no left neighbor the board
takes position 0, announces and pulses its right neighbor. -/
def rootInit (hasLeft : Bool) (s : Fw) : Fw × List Output :=
  if hasLeft then (s, [])
  else
    let r := sendIdAnnounce 0 { s with myBoardIndex := 0 }
    (r.1, r.2 ++ [Output.pulseRight])

/-- The maximum scan over registry entries used in `startDiscovery`:
fold the registry, keeping the largest `boardIndex` different from the
`0xFF` sentinel, starting from `init`. -/
def maxKnown (l : List NodeInfo) (init : Nat) : Nat :=
  l.foldl (fun m e => if e.boardIndex ≠ 0xFF ∧ e.boardIndex > m then e.boardIndex else m)
    init

/-- The falling-edge body of the discovery wait loop: an unassigned board
takes one more than the highest known index, announces and pulses right.
(`newIdx` is a `uint8_t`, hence the `% 256`.) -/
def edgeAssign (s : Fw) : Fw × List Output :=
  let base := if s.myBoardIndex = 0xFF then 0 else s.myBoardIndex
  let newIdx := (maxKnown s.nodeList base + 1) % 256
  let r := sendIdAnnounce newIdx { s with myBoardIndex := newIdx }
  (r.1, r.2 ++ [Output.pulseRight])

/-- One iteration of the discovery wait loop, abstracted over hardware
inputs: the bytes available on the bus this iteration, the sampled level of
the left-neighbor pin (`true` = HIGH), and whether `millis() - tStart` has
passed 100 ms. -/
structure DiscIter where
  bytes : List Nat
  leftLevel : Bool
  past100 : Bool
  deriving DecidableEq, Repr

/-- Result of one discovery-loop iteration. -/
structure StepOut where
  st : Fw
  leftPrev : Bool
  outs : List Output
  brk : Bool
  deriving DecidableEq, Repr

/-- One iteration of the wait loop of `startDiscovery`: drain the bus,
then on a falling edge of the left-neighbor input assign this board if
still unassigned; break once assigned and past the 100 ms settle mark. -/
def discLoopStep (leftPrev : Bool) (it : DiscIter) (s : Fw) : StepOut :=
  let r1 := fwProcessBytes it.bytes s
  let r2 :=
    if leftPrev = true ∧ it.leftLevel = false ∧ r1.1.myBoardIndex = 0xFF then
      edgeAssign r1.1
    else (r1.1, [])
  { st := r2.1, leftPrev := it.leftLevel, outs := r1.2 ++ r2.2,
    brk := (!(r2.1.myBoardIndex == 0xFF)) && it.past100 }

/-- The wait loop of `startDiscovery` over a finite iteration trace; the
trace running out models the 1000 ms budget expiring. -/
def discLoop (leftPrev : Bool) (iters : List DiscIter) (s : Fw) :
    Fw × List Output :=
  match iters with
  | [] => (s, [])
  | it :: rest =>
    let r := discLoopStep leftPrev it s
    if r.brk then (r.st, r.outs)
    else
      let r2 := discLoop r.leftPrev rest r.st
      (r2.1, r.outs ++ r2.2)

/-- The tail of `startDiscovery` after the wait loop: `totalBoards` is one
more than the highest index known across self and registry, an unassigned
board defaults to index 0, and `boardBaseNote` is the uint8 value of
`GLOBAL_BASE_NOTE + myBoardIndex * BOARD_NOTE_SPAN`; the run ends Done with
`isRemapping` cleared and health optimistically true. -/
def discFinalize (s : Fw) : Fw :=
  let maxIdx := maxKnown s.nodeList (if s.myBoardIndex = 0xFF then 0 else s.myBoardIndex)
  let idx := if s.myBoardIndex = 0xFF then 0 else s.myBoardIndex
  { s with
      totalBoards := (maxIdx + 1) % 256,
      myBoardIndex := idx,
      boardBaseNote := (GLOBAL_BASE_NOTE + idx * BOARD_NOTE_SPAN) % 256,
      discoveryDone := true, isRemapping := false, networkHealthy := true }

/-- `startDiscovery` end to end, abstracted over the sampled left-neighbor
presence, the initial level of the left pin, and the per-iteration hardware
inputs. -/
def startDiscoveryModel (hasLeft left0 : Bool) (iters : List DiscIter) (s : Fw) :
    Fw × List Output :=
  let r1 := rootInit hasLeft (discReset s)
  let r2 := discLoop left0 iters r1.1
  (discFinalize r2.1, r1.2 ++ r2.2)

/-- The remap consumption at the top of `loop()`: a pending request is
cleared and a discovery run performed. -/
def loopRemapConsume (hasLeft left0 : Bool) (iters : List DiscIter) (s : Fw) :
    Fw × List Output :=
  if s.remapRequested = true then
    startDiscoveryModel hasLeft left0 iters { s with remapRequested := false }
  else (s, [])

/-- A concrete firmware state used by the witnesses and counterexamples:
identity 42, converged solo root at position 0. -/
def sampleFw : Fw :=
  { myNodeId := 42, nodeList := [⟨42, 0⟩], myBoardIndex := 0, totalBoards := 1,
    discoveryDone := true, remapRequested := false, isRemapping := false,
    networkHealthy := true, boardBaseNote := 48, pingSequence := 0,
    awaitingPingReplies := false, pingStartMs := 0, lastPingMs := 0,
    pingReceived := List.replicate RS485_MAX_NODES false, rx := rxInit }

/-- Parser state reached after consuming a complete frame with type `t` and
payload `p` from a state-0 parser `s` (both on checksum match and mismatch,
the firmware leaves the stale fields and only rewinds `state`). -/
def rxAfterFrame (s : RxState) (t : Nat) (p : List Nat) : RxState :=
  { s with state := 0, len := p.length, ptype := t, buf := p, checksum := rs485Checksum t p }

theorem runParser_payload (p : List Nat) (s : RxState)
    (hst : s.state = 3) (hlen : s.buf.length + p.length = s.len)
    (hcap : s.len ≤ 32) (hne : p ≠ []) :
    runParser s p =
      ({ s with state := 4, buf := s.buf ++ p, checksum := p.foldl Nat.xor s.checksum },
        []) := by
  induction p generalizing s with
  | nil => cases hne rfl
  | cons b rest ih =>
    have hwrite : s.buf.length < 32 := by
      have h := hlen
      simp only [List.length_cons] at h
      omega
    rcases Decidable.em (rest = []) with hr | hr
    · subst hr
      have hdone : s.len ≤ s.buf.length + 1 := by
        simp only [List.length_cons, List.length_nil] at hlen; omega
      simp [runParser, rxStep, hst, hwrite, hdone, List.foldl]
    · have hrest : 1 ≤ rest.length := by
        cases rest with
        | nil => cases hr rfl
        | cons x xs => simp
      have hmore : ¬ s.len ≤ s.buf.length + 1 := by
        simp only [List.length_cons] at hlen; omega
      rw [runParser_cons]
      have hstep : rxStep s b =
          ({ s with buf := s.buf ++ [b], checksum := Nat.xor s.checksum b }, []) := by
        simp [rxStep, hst, hwrite, hmore]
      rw [hstep]
      have hrec := ih { s with buf := s.buf ++ [b], checksum := Nat.xor s.checksum b }
        (by simp [hst])
        (by
          simp only [List.length_append, List.length_cons, List.length_nil] at hlen ⊢
          omega)
        (by simpa using hcap) hr
      rw [hrec]
      simp [List.append_assoc]

theorem runParser_frame (s : RxState) (hs : s.state = 0) (t c : Nat) (p : List Nat)
    (h1 : p ≠ []) (h2 : p.length ≤ 32) :
    runParser s (0xAA :: p.length :: t :: (p ++ [c])) =
      (rxAfterFrame s t p,
        if rs485Checksum t p = c then [⟨t, p.length, p⟩] else []) := by
  rw [runParser_cons]
  have hstep0 : rxStep s 0xAA = ({ s with state := 1, checksum := 0 }, []) := by
    simp [rxStep, hs]
  rw [hstep0]
  rw [runParser_cons]
  have hstep1 : rxStep { s with state := 1, checksum := 0 } p.length =
      ({ s with state := 2, checksum := 0, len := p.length, buf := [] }, []) := by
    simp [rxStep]
  rw [hstep1]
  rw [runParser_cons]
  have hstep2 : rxStep { s with state := 2, checksum := 0, len := p.length, buf := [] } t =
      ({ s with state := 3, len := p.length, buf := [], ptype := t, checksum := Nat.xor t p.length }, []) := by
    simp [rxStep]
  rw [hstep2]
  rw [runParser_append]
  have hpay := runParser_payload p
    { s with state := 3, len := p.length, buf := [], ptype := t, checksum := Nat.xor t p.length }
    (by simp) (by simp) (by simpa using h2) h1
  rw [hpay]
  simp only [List.nil_append]
  rw [runParser_cons]
  by_cases hc : p.foldl Nat.xor (Nat.xor t p.length) = c
  · have hstep4 : rxStep { s with state := 4, len := p.length, buf := p, ptype := t, checksum := p.foldl Nat.xor (Nat.xor t p.length) } c =
        ({ s with state := 0, len := p.length, buf := p, ptype := t, checksum := p.foldl Nat.xor (Nat.xor t p.length) }, [⟨t, p.length, p⟩]) := by
      simp [rxStep, hc]
    rw [hstep4]
    simp [runParser, rxAfterFrame, rs485Checksum, hc]
  · have hstep4 : rxStep { s with state := 4, len := p.length, buf := p, ptype := t, checksum := p.foldl Nat.xor (Nat.xor t p.length) } c =
        ({ s with state := 0, len := p.length, buf := p, ptype := t, checksum := p.foldl Nat.xor (Nat.xor t p.length) }, []) := by
      simp [rxStep, hc]
    rw [hstep4]
    simp [runParser, rxAfterFrame, rs485Checksum, hc]

theorem runParser_roundtrip (s : RxState) (hs : s.state = 0) (t : Nat) (p : List Nat)
    (h1 : p ≠ []) (h2 : p.length ≤ 32) :
    runParser s (rs485SendPacketBytes t p) =
      (rxAfterFrame s t p, [⟨t, p.length, p⟩]) := by
  have h := runParser_frame s hs t (rs485Checksum t p) p h1 h2
  rw [rs485SendPacketBytes]
  rw [h]
  simp

/-- C4: the claim asserts that for every type and payload of at most 28
bytes the serializer's output deframes back to exactly one frame with the
same type and payload.  The firmware's own empty-payload REMAP_REQUEST
refutes it: the parser moves to the payload state with a declared length
of 0, consumes the checksum byte into the buffer, and is left waiting in
the checksum state having dispatched nothing. -/
theorem fracture_c4 :
    (runParser rxInit (rs485SendPacketBytes RS485_REMAP_REQUEST_MSG [])).2 = [] ∧
    (runParser rxInit (rs485SendPacketBytes RS485_REMAP_REQUEST_MSG [])).1.state = 4 := by
  decide

/-- Failing input for C6: a frame whose length byte 33 exceeds the 32-byte
parse buffer, followed by a complete well-formed ANNOUNCE frame. -/
def c6Bytes : List Nat :=
  0xAA :: 33 :: RS485_ANNOUNCE_MSG ::
    (List.replicate 33 0 ++ rs485SendPacketBytes RS485_ANNOUNCE_MSG [7, 0, 0, 0, 2])

/-- C6: the claim asserts that on a capacity overrun the parser is reset to
its initial parse state and can parse the next well-formed frame.  In the
code the byte-count cursor stops at 32 and can never reach a declared
length above 32, so the parser stays in the payload state forever: after
the overlong frame and a following well-formed frame nothing is dispatched
and the parser is still in state 3. -/
theorem fracture_c6 :
    (runParser rxInit c6Bytes).2 = [] ∧
    (runParser rxInit c6Bytes).1.state = 3 := by
  decide

/-- C9 (amended): for frames with a nonempty payload the claim holds: a
checksum mismatch dispatches nothing, the parser returns to the
START-seeking state, and an immediately following well-formed (nonempty)
frame is parsed back exactly.  (For empty payloads the mismatch check is
deferred one byte, see the counterexample.) -/
theorem fracture_c9 (t1 t2 c : Nat) (p1 p2 : List Nat)
    (h11 : p1 ≠ []) (h12 : p1.length ≤ 28)
    (h21 : p2 ≠ []) (h22 : p2.length ≤ 28)
    (hc : c ≠ rs485Checksum t1 p1) :
    (runParser rxInit (0xAA :: p1.length :: t1 :: (p1 ++ [c]))).2 = [] ∧
    (runParser rxInit (0xAA :: p1.length :: t1 :: (p1 ++ [c]))).1.state = 0 ∧
    (runParser rxInit ((0xAA :: p1.length :: t1 :: (p1 ++ [c])) ++
        rs485SendPacketBytes t2 p2)).2 = [⟨t2, p2.length, p2⟩] := by
  have hf := runParser_frame rxInit rfl t1 c p1 h11 (by omega)
  have hcc : ¬ (rs485Checksum t1 p1 = c) := fun h => hc h.symm
  refine ⟨?_, ?_, ?_⟩
  · rw [hf]
    simp [hcc]
  · rw [hf]
    rfl
  · rw [runParser_append, hf]
    have hr := runParser_roundtrip (rxAfterFrame rxInit t1 p1) rfl t2 p2 h21 (by omega)
    simp [hcc, hr]

/-- C9 witness: a concrete corrupted 2-byte NOTE-type frame followed by a
well-formed ANNOUNCE frame. -/
theorem fracture_c9_witness :
    (runParser rxInit (0xAA :: 2 :: 2 :: ([9, 9] ++ [1]))).2 = [] ∧
    (runParser rxInit (0xAA :: 2 :: 2 :: ([9, 9] ++ [1]))).1.state = 0 ∧
    (runParser rxInit ((0xAA :: 2 :: 2 :: ([9, 9] ++ [1])) ++
        rs485SendPacketBytes RS485_ANNOUNCE_MSG [7, 0, 0, 0, 1])).2 =
      [⟨RS485_ANNOUNCE_MSG, 5, [7, 0, 0, 0, 1]⟩] := by
  have h := fracture_c9 2 RS485_ANNOUNCE_MSG 1 [9, 9] [7, 0, 0, 0, 1]
    (by decide) (by decide) (by decide) (by decide) (by decide)
  simpa using h

/-- C9 counterexample: the wire bytes AA 00 05 04 form a REMAP_REQUEST
frame whose checksum byte 4 differs from the correct checksum 5; the claim
says such a frame is dropped with no handler invoked, but followed by a
stray byte 1 the parser dispatches it and the remap handler runs, setting
`remapRequested`. -/
theorem fracture_c9_cex :
    (4 ≠ rs485Checksum RS485_REMAP_REQUEST_MSG []) ∧
    sampleFw.remapRequested = false ∧
    (fwProcessBytes [0xAA, 0, 5, 4, 1] sampleFw).1.remapRequested = true := by
  decide

/-- Identities are pairwise distinct in a registry. -/
def RegDistinct (l : List NodeInfo) : Prop :=
  l.Pairwise (fun a b => a.nodeId ≠ b.nodeId)

theorem regOverwrite_eq_none_iff (l : List NodeInfo) (id p : Nat) :
    regOverwrite l id p = none ↔ ∀ e ∈ l, e.nodeId ≠ id := by
  induction l with
  | nil => simp [regOverwrite]
  | cons e rest ih =>
    by_cases h : e.nodeId = id
    · simp [regOverwrite, h]
    · simp [regOverwrite, h, ih, Option.map_eq_none']

theorem regOverwrite_eq_some (l : List NodeInfo) (id p : Nat) (l' : List NodeInfo)
    (h : regOverwrite l id p = some l') :
    ∃ l1 e l2, l = l1 ++ e :: l2 ∧ e.nodeId = id ∧ (∀ x ∈ l1, x.nodeId ≠ id) ∧
      l' = l1 ++ (⟨id, p⟩ : NodeInfo) :: l2 := by
  induction l generalizing l' with
  | nil => simp [regOverwrite] at h
  | cons a rest ih =>
    by_cases ha : a.nodeId = id
    · rw [regOverwrite, if_pos ha] at h
      refine ⟨[], a, rest, by simp, ha, by simp, ?_⟩
      have h2 := Option.some_injective _ h
      subst ha
      simp [← h2]
    · rw [regOverwrite, if_neg ha] at h
      rcases Option.map_eq_some'.mp h with ⟨l'', h1, h2⟩
      rcases ih l'' h1 with ⟨l1, e, l2, he1, he2, he3, he4⟩
      refine ⟨a :: l1, e, l2, by simp [he1], he2, ?_, by simp [← h2, he4]⟩
      intro x hx
      rcases List.mem_cons.mp hx with hxa | hxm
      · simpa [hxa] using ha
      · exact he3 x hxm

theorem registerNode_nodeList_some (id p : Nat) (s : Fw) (l' : List NodeInfo)
    (h : regOverwrite s.nodeList id p = some l') :
    (registerNode id p s).1.nodeList = l' ∧ (registerNode id p s).2 = [] := by
  constructor <;> simp [registerNode, h]

theorem registerNode_nodeList_fresh_lt (id p : Nat) (s : Fw)
    (h : regOverwrite s.nodeList id p = none)
    (hlen : s.nodeList.length < RS485_MAX_NODES) :
    (registerNode id p s).1.nodeList = s.nodeList ++ [⟨id, p⟩] := by
  simp only [registerNode, h, if_pos hlen]
  split <;> rfl

theorem registerNode_full_fresh (id p : Nat) (s : Fw)
    (h : regOverwrite s.nodeList id p = none)
    (hlen : ¬ s.nodeList.length < RS485_MAX_NODES) :
    registerNode id p s = (s, []) := by
  simp only [registerNode, h, if_neg hlen]

/-- The position recorded for `id` by the most recent `register(id, ·)`
call in a trace, if any. -/
def lastPos (calls : List (Nat × Nat)) (id : Nat) : Option Nat :=
  ((calls.filter (fun c => c.1 = id)).getLast?).map (fun c => c.2)

theorem lastPos_append_same (calls : List (Nat × Nat)) (id p : Nat) :
    lastPos (calls ++ [(id, p)]) id = some p := by
  unfold lastPos
  rw [List.filter_append]
  simp

theorem lastPos_append_other (calls : List (Nat × Nat)) (id p q : Nat) (h : q ≠ id) :
    lastPos (calls ++ [(id, p)]) q = lastPos calls q := by
  unfold lastPos
  rw [List.filter_append]
  simp [h.symm, fun hh : id = q => h hh.symm]

/-- Apply a trace of `registerNode` calls, head first (the packets they
would send are irrelevant to the registry contents). -/
def applyRegs (calls : List (Nat × Nat)) (s : Fw) : Fw :=
  match calls with
  | [] => s
  | c :: rest => applyRegs rest (registerNode c.1 c.2 s).1

theorem applyRegs_append (a b : List (Nat × Nat)) (s : Fw) :
    applyRegs (a ++ b) s = applyRegs b (applyRegs a s) := by
  induction a generalizing s with
  | nil => rfl
  | cons c rest ih => simp [applyRegs, ih]

theorem applyRegs_spec (calls : List (Nat × Nat)) (s0 : Fw) (h0 : s0.nodeList = []) :
    RegDistinct (applyRegs calls s0).nodeList ∧
    (applyRegs calls s0).nodeList.length ≤ RS485_MAX_NODES ∧
    (∀ e ∈ (applyRegs calls s0).nodeList, lastPos calls e.nodeId = some e.boardIndex) := by
  induction calls using List.reverseRecOn with
  | nil =>
    simp [applyRegs, h0, RegDistinct, RS485_MAX_NODES]
  | append_singleton l c ih =>
    rw [applyRegs_append]
    rcases ih with ⟨ihd, ihl, ihp⟩
    rcases hov : regOverwrite (applyRegs l s0).nodeList c.1 c.2 with _ | l'
    · have hfresh := (regOverwrite_eq_none_iff _ c.1 c.2).mp hov
      by_cases hlen : (applyRegs l s0).nodeList.length < RS485_MAX_NODES
      · have hnl := registerNode_nodeList_fresh_lt c.1 c.2 (applyRegs l s0) hov hlen
        have happ : applyRegs [c] (applyRegs l s0) = (registerNode c.1 c.2 (applyRegs l s0)).1 := rfl
        rw [happ, hnl]
        refine ⟨?_, ?_, ?_⟩
        · rw [RegDistinct, List.pairwise_append]
          exact ⟨ihd, List.pairwise_singleton _ _,
            fun a ha b hb => by
              simp only [List.mem_singleton] at hb
              subst hb
              exact hfresh a ha⟩
        · simp only [List.length_append, List.length_cons, List.length_nil]
          omega
        · intro e he
          rcases List.mem_append.mp he with hold | hnew
          · rw [lastPos_append_other l c.1 c.2 e.nodeId (hfresh e hold)]
            exact ihp e hold
          · simp only [List.mem_singleton] at hnew
            subst hnew
            exact lastPos_append_same l c.1 c.2
      · have hnl := registerNode_full_fresh c.1 c.2 (applyRegs l s0) hov hlen
        have happ : applyRegs [c] (applyRegs l s0) = (registerNode c.1 c.2 (applyRegs l s0)).1 := rfl
        rw [happ, hnl]
        refine ⟨ihd, ihl, fun e he => ?_⟩
        rw [lastPos_append_other l c.1 c.2 e.nodeId (hfresh e he)]
        exact ihp e he
    · have hnl := (registerNode_nodeList_some c.1 c.2 (applyRegs l s0) l' hov).1
      rcases regOverwrite_eq_some _ c.1 c.2 l' hov with ⟨l1, e, l2, hdec, hid, hl1, hl'⟩
      have happ : applyRegs [c] (applyRegs l s0) = (registerNode c.1 c.2 (applyRegs l s0)).1 := rfl
      rw [happ, hnl, hl']
      have hdistOld : RegDistinct (l1 ++ e :: l2) := by rw [← hdec]; exact ihd
      rw [RegDistinct, List.pairwise_append] at hdistOld
      rcases hdistOld with ⟨hd1, hd2, hd12⟩
      rw [List.pairwise_cons] at hd2
      rcases hd2 with ⟨he2, hd2⟩
      refine ⟨?_, ?_, ?_⟩
      · rw [RegDistinct, List.pairwise_append]
        refine ⟨hd1,
          List.pairwise_cons.mpr ⟨fun x hx => by simpa [hid] using he2 x hx, hd2⟩,
          fun a ha b hb => ?_⟩
        rcases List.mem_cons.mp hb with hb1 | hb2
        · subst hb1
          simpa using hl1 a ha
        · exact hd12 a ha b (List.mem_cons_of_mem _ hb2)
      · have : (l1 ++ (⟨c.1, c.2⟩ : NodeInfo) :: l2).length = (l1 ++ e :: l2).length := by
          simp
        rw [this, ← hdec]
        exact ihl
      · intro x hx
        rcases List.mem_append.mp hx with hx1 | hx2
        · have hxold : x ∈ (applyRegs l s0).nodeList := by
            rw [hdec]
            exact List.mem_append.mpr (Or.inl hx1)
          rw [lastPos_append_other l c.1 c.2 x.nodeId (hl1 x hx1)]
          exact ihp x hxold
        · rcases List.mem_cons.mp hx2 with hx3 | hx4
          · subst hx3
            exact lastPos_append_same l c.1 c.2
          · have hxold : x ∈ (applyRegs l s0).nodeList := by
              rw [hdec]
              exact List.mem_append.mpr (Or.inr (List.mem_cons_of_mem _ hx4))
            have hxne : x.nodeId ≠ c.1 := by
              intro hxx
              exact (he2 x hx4) (by rw [hid, ← hxx])
            rw [lastPos_append_other l c.1 c.2 x.nodeId hxne]
            exact ihp x hxold

/-- C7: after any trace of register calls from an empty registry, the
identities are pairwise distinct and the size never exceeds 16; every
recorded position is the most recently registered one for that identity;
a full registry silently refuses a fresh identity; and re-registering a
present identity overwrites in place without growing the registry. -/
theorem fracture_c7 (calls : List (Nat × Nat)) (s0 : Fw) (h0 : s0.nodeList = []) :
    RegDistinct (applyRegs calls s0).nodeList ∧
    (applyRegs calls s0).nodeList.length ≤ RS485_MAX_NODES ∧
    (∀ e ∈ (applyRegs calls s0).nodeList, lastPos calls e.nodeId = some e.boardIndex) ∧
    (∀ id p, (∀ e ∈ (applyRegs calls s0).nodeList, e.nodeId ≠ id) →
      (applyRegs calls s0).nodeList.length = RS485_MAX_NODES →
      registerNode id p (applyRegs calls s0) = (applyRegs calls s0, [])) ∧
    (∀ id p, (∃ e ∈ (applyRegs calls s0).nodeList, e.nodeId = id) →
      ((registerNode id p (applyRegs calls s0)).1.nodeList.length =
          (applyRegs calls s0).nodeList.length ∧
        (⟨id, p⟩ : NodeInfo) ∈ (registerNode id p (applyRegs calls s0)).1.nodeList)) := by
  obtain ⟨hd, hl, hp⟩ := applyRegs_spec calls s0 h0
  refine ⟨hd, hl, hp, ?_, ?_⟩
  · intro id p hfresh hfull
    have hov : regOverwrite (applyRegs calls s0).nodeList id p = none :=
      (regOverwrite_eq_none_iff _ id p).mpr hfresh
    exact registerNode_full_fresh id p _ hov (by rw [hfull]; exact lt_irrefl _)
  · rintro id p ⟨e, he, heid⟩
    rcases hov : regOverwrite (applyRegs calls s0).nodeList id p with _ | l'
    · exact absurd heid ((regOverwrite_eq_none_iff _ id p).mp hov e he)
    · obtain ⟨hnl, -⟩ := registerNode_nodeList_some id p _ l' hov
      rcases regOverwrite_eq_some _ id p l' hov with ⟨l1, e2, l2, hdec, hid2, hl1, hl'⟩
      constructor
      · rw [hnl, hl', hdec]
        simp
      · rw [hnl, hl']
        exact List.mem_append.mpr (Or.inr (List.mem_cons_self _ _))

/-- Trace used by the C7 witness: identity 1 registered twice. -/
def c7Calls : List (Nat × Nat) := [(1, 0), (2, 1), (1, 5)]

/-- Base state with an empty registry used by the C7 witness. -/
def c7Base : Fw := { sampleFw with nodeList := [] }

/-- C7 witness at a concrete trace: the duplicate registration of identity
1 leaves a bounded registry whose recorded position is the last one. -/
theorem fracture_c7_witness :
    c7Base.nodeList = [] ∧
    (applyRegs c7Calls c7Base).nodeList.length ≤ RS485_MAX_NODES ∧
    lastPos c7Calls 1 = some 5 := by
  have h := fracture_c7 c7Calls c7Base rfl
  refine ⟨rfl, h.2.1, ?_⟩
  have h3 := h.2.2.1 ⟨1, 5⟩ (by decide)
  simpa using h3

/-- C8: the registerNode side effects (REMAP_REQUEST broadcast, pending
remap flag, health cleared) occur exactly when discovery has converged, the
identity is new, capacity remains and this board is the root; in every
other case no packet is emitted and both flags are untouched. -/
theorem fracture_c8 (s : Fw) (id p : Nat) :
    ((s.discoveryDone = true ∧ (∀ e ∈ s.nodeList, e.nodeId ≠ id) ∧
        s.nodeList.length < RS485_MAX_NODES ∧ s.myBoardIndex = 0) →
      (registerNode id p s).2 = [Output.packet RS485_REMAP_REQUEST_MSG []] ∧
      (registerNode id p s).1.remapRequested = true ∧
      (registerNode id p s).1.networkHealthy = false) ∧
    (¬(s.discoveryDone = true ∧ (∀ e ∈ s.nodeList, e.nodeId ≠ id) ∧
        s.nodeList.length < RS485_MAX_NODES ∧ s.myBoardIndex = 0) →
      (registerNode id p s).2 = [] ∧
      (registerNode id p s).1.remapRequested = s.remapRequested ∧
      (registerNode id p s).1.networkHealthy = s.networkHealthy) := by
  constructor
  · rintro ⟨hd, hfresh, hcap, hroot⟩
    have hov := (regOverwrite_eq_none_iff s.nodeList id p).mpr hfresh
    simp [registerNode, hov, hcap, hd, hroot]
  · intro hneg
    rcases hov : regOverwrite s.nodeList id p with _ | l'
    · have hfresh := (regOverwrite_eq_none_iff s.nodeList id p).mp hov
      by_cases hcap : s.nodeList.length < RS485_MAX_NODES
      · by_cases hgd : s.discoveryDone = true ∧ s.myBoardIndex = 0
        · exact absurd ⟨hgd.1, hfresh, hcap, hgd.2⟩ hneg
        · simp [registerNode, hov, hcap, hgd]
      · simp [registerNode, hov, hcap]
    · simp [registerNode, hov]

/-- C8 witness: on the converged root `sampleFw`, the fresh identity 7
triggers exactly the remap side effects, while re-registering the known
identity 42 triggers none. -/
theorem fracture_c8_witness :
    (sampleFw.discoveryDone = true ∧ (∀ e ∈ sampleFw.nodeList, e.nodeId ≠ 7) ∧
      sampleFw.nodeList.length < RS485_MAX_NODES ∧ sampleFw.myBoardIndex = 0) ∧
    (registerNode 7 1 sampleFw).2 = [Output.packet RS485_REMAP_REQUEST_MSG []] ∧
    (registerNode 7 1 sampleFw).1.remapRequested = true ∧
    (registerNode 42 0 sampleFw).2 = [] := by
  have hyp : sampleFw.discoveryDone = true ∧ (∀ e ∈ sampleFw.nodeList, e.nodeId ≠ 7) ∧
      sampleFw.nodeList.length < RS485_MAX_NODES ∧ sampleFw.myBoardIndex = 0 := by
    refine ⟨rfl, ?_, by decide, rfl⟩
    decide
  have h1 := (fracture_c8 sampleFw 7 1).1 hyp
  have h2 := (fracture_c8 sampleFw 42 0).2 (by decide)
  exact ⟨hyp, h1.1, h1.2.1, h2.1⟩

/-- C10: `handleNotePacket` never mutates state; a 7-byte NOTE payload
whose identity equals this board's own identity produces no callbacks; and
any callback produced implies a well-formed payload from a different
identity. -/
theorem fracture_c10 (s : Fw) (payload : List Nat) (len : Nat) :
    (handleNotePacket payload len s).1 = s ∧
    (len = 7 →
      decodeId (payload.getD 0 0) (payload.getD 1 0) (payload.getD 2 0) (payload.getD 3 0) =
        s.myNodeId →
      (handleNotePacket payload len s).2 = []) ∧
    ((handleNotePacket payload len s).2 ≠ [] →
      len = 7 ∧
      decodeId (payload.getD 0 0) (payload.getD 1 0) (payload.getD 2 0) (payload.getD 3 0) ≠
        s.myNodeId) := by
  simp only [handleNotePacket]
  split_ifs with h1 h2 h3 <;> simp_all

/-- C10 witness: a NOTE payload carrying this board's own identity 42 is
discarded with no callbacks and no state change. -/
theorem fracture_c10_witness :
    (handleNotePacket [42, 0, 0, 0, 60, 100, 1] 7 sampleFw).1 = sampleFw ∧
    decodeId 42 0 0 0 = sampleFw.myNodeId ∧
    (handleNotePacket [42, 0, 0, 0, 60, 100, 1] 7 sampleFw).2 = [] := by
  have h := fracture_c10 sampleFw [42, 0, 0, 0, 60, 100, 1] 7
  exact ⟨h.1, by decide, h.2.1 rfl (by decide)⟩

theorem anyMissing_eq_true_iff (s : Fw) :
    anyMissing s = true ↔
      ∃ i, i < s.nodeList.length ∧ s.pingReceived.getD i false = false := by
  unfold anyMissing
  rw [List.any_eq_true]
  constructor
  · rintro ⟨i, hi, hb⟩
    exact ⟨i, List.mem_range.mp hi, by simpa using hb⟩
  · rintro ⟨i, hi, hb⟩
    exact ⟨i, List.mem_range.mpr hi, by simpa using hb⟩

/-- C3: for a root board awaiting replies whose window has expired, the
expiry branch of `loop()` marks health healthy and sends nothing when every
registry slot is marked received, and marks health unhealthy and broadcasts
exactly one REMAP_REQUEST when any slot is unreceived. -/
theorem fracture_c3 (s : Fw) (nowMs : Nat)
    (h0 : s.myBoardIndex = 0) (h1 : s.totalBoards > 1)
    (h2 : s.awaitingPingReplies = true) (h3 : nowMs - s.pingStartMs > PING_TIMEOUT_MS) :
    ((∀ i < s.nodeList.length, s.pingReceived.getD i false = true) →
      (healthCheck nowMs s).1.networkHealthy = true ∧ (healthCheck nowMs s).2 = []) ∧
    ((∃ i, i < s.nodeList.length ∧ s.pingReceived.getD i false = false) →
      (healthCheck nowMs s).1.networkHealthy = false ∧
      (healthCheck nowMs s).2 = [Output.packet RS485_REMAP_REQUEST_MSG []]) := by
  constructor
  · intro hall
    have hm : anyMissing s = false := by
      cases hmm : anyMissing s
      · rfl
      · exfalso
        rcases (anyMissing_eq_true_iff s).mp hmm with ⟨i, hi, hb⟩
        rw [hall i hi] at hb
        cases hb
    unfold healthCheck
    rw [if_pos ⟨h0, h1⟩, if_neg (by simp [h2]), if_pos ⟨h2, h3⟩, if_neg (by simp [hm])]
    exact ⟨rfl, rfl⟩
  · intro hex
    have hm : anyMissing s = true := (anyMissing_eq_true_iff s).mpr hex
    unfold healthCheck
    rw [if_pos ⟨h0, h1⟩, if_neg (by simp [h2]), if_pos ⟨h2, h3⟩, if_pos hm]
    exact ⟨rfl, rfl⟩

/-- Root state for the C3 witness in which both registry slots replied. -/
def c3AllS : Fw :=
  { sampleFw with
      totalBoards := 2, awaitingPingReplies := true,
      nodeList := [⟨42, 0⟩, ⟨7, 1⟩],
      pingReceived := [true, true] ++ List.replicate 14 false }

/-- Root state for the C3 witness in which slot 1 never replied. -/
def c3MissS : Fw :=
  { sampleFw with
      totalBoards := 2, awaitingPingReplies := true,
      nodeList := [⟨42, 0⟩, ⟨7, 1⟩],
      pingReceived := [true] ++ List.replicate 15 false }

/-- C3 witness: both branches of the window-expiry check at a concrete
root state and time 300 ms. -/
theorem fracture_c3_witness :
    ((healthCheck 300 c3AllS).1.networkHealthy = true ∧ (healthCheck 300 c3AllS).2 = []) ∧
    ((healthCheck 300 c3MissS).1.networkHealthy = false ∧
      (healthCheck 300 c3MissS).2 = [Output.packet RS485_REMAP_REQUEST_MSG []]) := by
  refine ⟨(fracture_c3 c3AllS 300 rfl (by decide) rfl (by decide)).1 (by decide),
    (fracture_c3 c3MissS 300 rfl (by decide) rfl (by decide)).2 ⟨1, by decide, by decide⟩⟩

theorem maxKnown_cons (e : NodeInfo) (rest : List NodeInfo) (init : Nat) :
    maxKnown (e :: rest) init =
      maxKnown rest (if e.boardIndex ≠ 0xFF ∧ e.boardIndex > init then e.boardIndex else init) :=
  rfl

theorem maxKnown_le (l : List NodeInfo) (init : Nat)
    (hinit : init ≤ 254) (hb : ∀ e ∈ l, e.boardIndex ≤ 255) :
    maxKnown l init ≤ 254 := by
  induction l generalizing init with
  | nil => simpa [maxKnown] using hinit
  | cons e rest ih =>
    rw [maxKnown_cons]
    refine ih _ ?_ (fun x hx => hb x (List.mem_cons_of_mem _ hx))
    split_ifs with hcond
    · have hbe := hb e (List.mem_cons_self _ _)
      rcases hcond with ⟨hne, -⟩
      omega
    · exact hinit

theorem registerNode_myBoardIndex (id p : Nat) (s : Fw) :
    (registerNode id p s).1.myBoardIndex = s.myBoardIndex := by
  rcases hov : regOverwrite s.nodeList id p with _ | l'
  · simp only [registerNode, hov]
    split_ifs <;> rfl
  · simp [registerNode, hov]

theorem registerNode_outs_of_ne_root (id p : Nat) (s : Fw) (h : s.myBoardIndex ≠ 0) :
    (registerNode id p s).2 = [] := by
  rcases hov : regOverwrite s.nodeList id p with _ | l'
  · simp only [registerNode, hov]
    split_ifs with hlen hgd
    · exact absurd hgd.2 h
    · rfl
    · rfl
  · simp [registerNode, hov]

theorem edgeAssign_spec (s : Fw) (hun : s.myBoardIndex = 0xFF)
    (hb : ∀ e ∈ s.nodeList, e.boardIndex ≤ 255) :
    (edgeAssign s).1.myBoardIndex = maxKnown s.nodeList 0 + 1 ∧
    (edgeAssign s).2 =
      [Output.packet RS485_ANNOUNCE_MSG
          (encodeId s.myNodeId ++ [maxKnown s.nodeList 0 + 1]),
        Output.pulseRight] := by
  have hmax : maxKnown s.nodeList 0 ≤ 254 := maxKnown_le _ 0 (by omega) hb
  have hmod : (maxKnown s.nodeList 0 + 1) % 256 = maxKnown s.nodeList 0 + 1 :=
    Nat.mod_eq_of_lt (by omega)
  have hne0 : maxKnown s.nodeList 0 + 1 ≠ 0 := by omega
  simp only [edgeAssign, sendIdAnnounce, hun]
  norm_num [hmod]
  constructor
  · rw [registerNode_myBoardIndex]
  · rw [registerNode_outs_of_ne_root]
    exact hne0

/-- C1: in a discovery-loop iteration that sees a falling edge on the
left-neighbor input while this board is still unassigned (index 0xFF after
draining the iteration's bytes), the board takes one more than the highest
position in its registry (0 when the registry holds none), announces that
position with its identity, and pulses its right-neighbor output. -/
theorem fracture_c1 (s : Fw) (leftPrev : Bool) (it : DiscIter)
    (hprev : leftPrev = true) (hlvl : it.leftLevel = false)
    (hun : (fwProcessBytes it.bytes s).1.myBoardIndex = 0xFF)
    (hb : ∀ e ∈ (fwProcessBytes it.bytes s).1.nodeList, e.boardIndex ≤ 255) :
    (discLoopStep leftPrev it s).st.myBoardIndex =
      maxKnown (fwProcessBytes it.bytes s).1.nodeList 0 + 1 ∧
    (discLoopStep leftPrev it s).outs =
      (fwProcessBytes it.bytes s).2 ++
        [Output.packet RS485_ANNOUNCE_MSG
            (encodeId (fwProcessBytes it.bytes s).1.myNodeId ++
              [maxKnown (fwProcessBytes it.bytes s).1.nodeList 0 + 1]),
          Output.pulseRight] := by
  have hspec := edgeAssign_spec (fwProcessBytes it.bytes s).1 hun hb
  simp only [discLoopStep]
  rw [if_pos ⟨hprev, hlvl, hun⟩]
  exact ⟨hspec.1, by rw [hspec.2]⟩

/-- Unassigned downstream state used by the C1 witness: one prior ANNOUNCE
at position 3 in the registry. -/
def c1S : Fw :=
  { sampleFw with myBoardIndex := 0xFF, nodeList := [⟨7, 3⟩], discoveryDone := false }

/-- C1 witness: on a falling edge the board with registry maximum 3
assigns itself 4, announces it and pulses right. -/
theorem fracture_c1_witness :
    (discLoopStep true ⟨[], false, false⟩ c1S).st.myBoardIndex = 4 ∧
    (discLoopStep true ⟨[], false, false⟩ c1S).outs =
      [Output.packet RS485_ANNOUNCE_MSG [42, 0, 0, 0, 4], Output.pulseRight] := by
  have h := fracture_c1 c1S true ⟨[], false, false⟩ rfl rfl (by decide) (by decide)
  exact ⟨h.1.trans (by decide), h.2.trans (by decide)⟩

/-- C2 (amended): on budget expiry a never-assigned board defaults to
position 0; the total board count is one more than the highest position
known across self and registry; and the note-range base is the uint8
truncation `(48 + position * 24) % 256`, which equals `48 + position * 24`
exactly when the position is at most 8. -/
theorem fracture_c2 (s : Fw) (hm : s.myBoardIndex ≤ 0xFF)
    (hb : ∀ e ∈ s.nodeList, e.boardIndex ≤ 0xFF) :
    (s.myBoardIndex = 0xFF → (discFinalize s).myBoardIndex = 0) ∧
    (s.myBoardIndex ≠ 0xFF → (discFinalize s).myBoardIndex = s.myBoardIndex) ∧
    (discFinalize s).totalBoards =
      maxKnown s.nodeList (if s.myBoardIndex = 0xFF then 0 else s.myBoardIndex) + 1 ∧
    (discFinalize s).boardBaseNote =
      (GLOBAL_BASE_NOTE + (discFinalize s).myBoardIndex * BOARD_NOTE_SPAN) % 256 ∧
    ((discFinalize s).myBoardIndex ≤ 8 →
      (discFinalize s).boardBaseNote =
        GLOBAL_BASE_NOTE + (discFinalize s).myBoardIndex * BOARD_NOTE_SPAN) := by
  have hinit : (if s.myBoardIndex = 0xFF then 0 else s.myBoardIndex) ≤ 254 := by
    split_ifs with h
    · omega
    · omega
  have hmax := maxKnown_le s.nodeList _ hinit hb
  refine ⟨?_, ?_, ?_, ?_, ?_⟩
  · intro h
    simp [discFinalize, h]
  · intro h
    simp [discFinalize, h]
  · simp only [discFinalize]
    exact Nat.mod_eq_of_lt (by omega)
  · rfl
  · intro h8
    simp only [discFinalize] at h8 ⊢
    set x := (if s.myBoardIndex = 0xFF then 0 else s.myBoardIndex) with hx
    exact Nat.mod_eq_of_lt (by simp only [GLOBAL_BASE_NOTE, BOARD_NOTE_SPAN]; omega)

/-- Finalization state used by the C2 witness: unassigned self, registry
maximum position 2. -/
def c2W : Fw := { sampleFw with myBoardIndex := 0xFF, nodeList := [⟨7, 2⟩] }

/-- C2 witness: finalizing `c2W` defaults the board to position 0 with
three boards total and note base 48. -/
theorem fracture_c2_witness :
    (discFinalize c2W).myBoardIndex = 0 ∧
    (discFinalize c2W).totalBoards = 3 ∧
    (discFinalize c2W).boardBaseNote = 48 := by
  have h := fracture_c2 c2W (by decide) (by decide)
  refine ⟨h.1 rfl, h.2.2.1.trans (by decide), ?_⟩
  exact (h.2.2.2.2 (by decide)).trans (by decide)

/-- Discovery inputs for the C2 counterexample: one ANNOUNCE claiming
position 8, then a falling edge. -/
def c2Iters : List DiscIter :=
  [⟨rs485SendPacketBytes RS485_ANNOUNCE_MSG [7, 0, 0, 0, 8], true, false⟩,
    ⟨[], false, false⟩]

/-- C2 counterexample: a downstream board assigned position 9 ends the run
with `boardBaseNote = 8`, not the claimed `48 + 9 * 24 = 264`: the uint8
store truncates mod 256. -/
theorem fracture_c2_cex :
    (startDiscoveryModel true true c2Iters sampleFw).1.myBoardIndex = 9 ∧
    (startDiscoveryModel true true c2Iters sampleFw).1.totalBoards = 10 ∧
    (startDiscoveryModel true true c2Iters sampleFw).1.boardBaseNote = 8 ∧
    (startDiscoveryModel true true c2Iters sampleFw).1.boardBaseNote ≠
      GLOBAL_BASE_NOTE +
        (startDiscoveryModel true true c2Iters sampleFw).1.myBoardIndex * BOARD_NOTE_SPAN := by
  decide

theorem handleNotePacket_fst (payload : List Nat) (len : Nat) (s : Fw) :
    (handleNotePacket payload len s).1 = s := by
  simp only [handleNotePacket]
  split_ifs <;> rfl

theorem handlePingPacket_fst (payload : List Nat) (len : Nat) (s : Fw) :
    (handlePingPacket payload len s).1 = s := by
  simp only [handlePingPacket]
  split_ifs <;> rfl

theorem handlePingReplyPacket_remap (payload : List Nat) (len : Nat) (s : Fw) :
    (handlePingReplyPacket payload len s).1.remapRequested = s.remapRequested := by
  simp only [handlePingReplyPacket]
  split_ifs <;> try rfl
  split <;> rfl

theorem registerNode_remap_mono (id p : Nat) (s : Fw) (h : s.remapRequested = true) :
    (registerNode id p s).1.remapRequested = true := by
  rcases hov : regOverwrite s.nodeList id p with _ | l'
  · simp only [registerNode, hov]
    split_ifs <;> first | rfl | exact h
  · simpa [registerNode, hov] using h

theorem handleAnnouncePacket_remap_mono (payload : List Nat) (len : Nat) (s : Fw)
    (h : s.remapRequested = true) :
    (handleAnnouncePacket payload len s).1.remapRequested = true := by
  simp only [handleAnnouncePacket]
  split_ifs
  · exact h
  · exact registerNode_remap_mono _ _ _ h

theorem dispatchFrame_remap_mono (f : Frame) (s : Fw) (h : s.remapRequested = true) :
    (dispatchFrame f s).1.remapRequested = true := by
  simp only [dispatchFrame]
  split_ifs
  · exact handleAnnouncePacket_remap_mono _ _ _ h
  · rw [handleNotePacket_fst]
    exact h
  · rw [handlePingPacket_fst]
    exact h
  · rw [handlePingReplyPacket_remap]
    exact h
  · simp [handleRemapRequestPacket]
  · exact h

theorem fwRxByte_remap_mono (b : Nat) (s : Fw) (h : s.remapRequested = true) :
    (fwRxByte b s).1.remapRequested = true := by
  rcases hr : (rxStep s.rx b).2 with _ | ⟨f, fs⟩ <;> simp only [fwRxByte, hr]
  · simpa using h
  · exact dispatchFrame_remap_mono f _ (by simpa using h)

theorem fwProcessBytes_remap_mono (bytes : List Nat) (s : Fw)
    (h : s.remapRequested = true) :
    (fwProcessBytes bytes s).1.remapRequested = true := by
  induction bytes generalizing s with
  | nil => simpa [fwProcessBytes] using h
  | cons b rest ih =>
    simp only [fwProcessBytes]
    exact ih _ (fwRxByte_remap_mono b s h)

theorem sendIdAnnounce_remap_mono (idx : Nat) (s : Fw) (h : s.remapRequested = true) :
    (sendIdAnnounce idx s).1.remapRequested = true := by
  simp only [sendIdAnnounce]
  exact registerNode_remap_mono _ _ _ h

theorem edgeAssign_remap_mono (s : Fw) (h : s.remapRequested = true) :
    (edgeAssign s).1.remapRequested = true := by
  simp only [edgeAssign]
  exact sendIdAnnounce_remap_mono _ _ (by simpa using h)

theorem rootInit_remap_mono (hasLeft : Bool) (s : Fw) (h : s.remapRequested = true) :
    (rootInit hasLeft s).1.remapRequested = true := by
  simp only [rootInit]
  split_ifs
  · exact h
  · exact sendIdAnnounce_remap_mono _ _ (by simpa using h)

theorem discLoopStep_remap_mono (lp : Bool) (it : DiscIter) (s : Fw)
    (h : s.remapRequested = true) :
    (discLoopStep lp it s).st.remapRequested = true := by
  simp only [discLoopStep]
  split_ifs with hc
  · exact edgeAssign_remap_mono _ (fwProcessBytes_remap_mono it.bytes s h)
  · exact fwProcessBytes_remap_mono it.bytes s h

theorem discLoop_remap_mono (lp : Bool) (iters : List DiscIter) (s : Fw)
    (h : s.remapRequested = true) :
    (discLoop lp iters s).1.remapRequested = true := by
  induction iters generalizing lp s with
  | nil => simpa [discLoop] using h
  | cons it rest ih =>
    simp only [discLoop]
    split_ifs with hbrk
    · exact discLoopStep_remap_mono _ _ _ h
    · exact ih _ _ (discLoopStep_remap_mono _ _ _ h)

theorem startDiscoveryModel_remap_mono (hasLeft left0 : Bool) (iters : List DiscIter)
    (s : Fw) (h : s.remapRequested = true) :
    (startDiscoveryModel hasLeft left0 iters s).1.remapRequested = true := by
  simp only [startDiscoveryModel]
  have h1 : (rootInit hasLeft (discReset s)).1.remapRequested = true :=
    rootInit_remap_mono hasLeft _ (by simpa [discReset] using h)
  have h2 := discLoop_remap_mono left0 iters _ h1
  simpa [discFinalize] using h2

theorem startDiscoveryModel_done (hasLeft left0 : Bool) (iters : List DiscIter) (s : Fw) :
    (startDiscoveryModel hasLeft left0 iters s).1.discoveryDone = true ∧
    (startDiscoveryModel hasLeft left0 iters s).1.isRemapping = false := by
  simp [startDiscoveryModel, discFinalize]

/-- C5 (amended): a REMAP_REQUEST received mid-run does not restart or
abort the in-progress run (the handler only sets the pending-remap and
unhealthy flags, and every run still completes to Done with `isRemapping`
cleared), but a pending request is NOT cleared when the run reaches Done:
the flag survives the run, and the main loop then consumes it and performs
one follow-up discovery run. -/
theorem fracture_c5 (hasLeft left0 : Bool) (iters : List DiscIter) (s : Fw) :
    (startDiscoveryModel hasLeft left0 iters s).1.discoveryDone = true ∧
    (startDiscoveryModel hasLeft left0 iters s).1.isRemapping = false ∧
    (s.remapRequested = true →
      (startDiscoveryModel hasLeft left0 iters s).1.remapRequested = true) ∧
    (∀ payload len t, handleRemapRequestPacket payload len t =
      ({ t with remapRequested := true, networkHealthy := false }, [])) ∧
    (s.remapRequested = true →
      loopRemapConsume hasLeft left0 iters s =
        startDiscoveryModel hasLeft left0 iters { s with remapRequested := false }) :=
  ⟨(startDiscoveryModel_done hasLeft left0 iters s).1,
    (startDiscoveryModel_done hasLeft left0 iters s).2,
    fun h => startDiscoveryModel_remap_mono hasLeft left0 iters s h,
    fun _ _ _ => rfl,
    fun h => by simp [loopRemapConsume, h]⟩

/-- C5 witness: a run entered with the pending-remap flag set completes to
Done with the flag still set. -/
theorem fracture_c5_witness :
    (startDiscoveryModel false true []
      { sampleFw with remapRequested := true }).1.discoveryDone = true ∧
    (startDiscoveryModel false true []
      { sampleFw with remapRequested := true }).1.remapRequested = true := by
  have h := fracture_c5 false true [] { sampleFw with remapRequested := true }
  exact ⟨h.1, h.2.2.1 rfl⟩

/-- Discovery inputs for the C5 counterexample: the bytes of a
REMAP_REQUEST frame (followed by one flush byte, without which the parser
cannot deliver an empty frame) arriving during the run. -/
def c5Iters : List DiscIter := [⟨[0xAA, 0, 5, 5, 0], true, false⟩]

/-- C5 counterexample: a REMAP_REQUEST dispatched while the run is in
progress leaves `remapRequested` set when the run transitions to Done, so
the pending request is not cleared as claimed and the main loop will
perform a second discovery run. -/
theorem fracture_c5_cex :
    sampleFw.remapRequested = false ∧
    (startDiscoveryModel false true c5Iters sampleFw).1.discoveryDone = true ∧
    (startDiscoveryModel false true c5Iters sampleFw).1.remapRequested = true := by
  decide

end Fracture
